import Mathlib

/-!
Verification of the per-session rendering pipeline of the maldoror.dev
repository (terminal-rendered multiplayer world).

Shallow embedding conventions:
* TypeScript numbers that only ever hold integers are modelled as `Int`
  (or `Nat` for loop counters / sizes); fractional arithmetic
  (terrain thresholds, brightness multipliers, probabilities) is
  modelled over `ℚ`.
* JavaScript `Map` objects are modelled as association lists in
  insertion order (`Map.set` of a fresh key appends; of an existing key
  updates in place), matching JS iteration-order semantics.
* Fallible lookups return `Option`.
* `Date.now()` values are threaded explicitly as an integer parameter.

Source files are referred to by their names inside the repository:
`viewport-renderer.ts` (ViewportRenderer), `prediction-cache.ts`
(PredictionCache), `brightness-cache.ts` (BrightnessVariantCache),
`tile-provider.ts` (TileProvider, createPlaceholderSprite),
`worker-manager.ts` (placeholder colour derivation).
-/

/-- RGB colour. The source's `RGB` interface `{ r, g, b : number }`. -/
structure RGB where
  r : Int
  g : Int
  b : Int
deriving DecidableEq, Repr

/-- A pixel is either a colour or the transparency sentinel `null`. -/
def Pixel := Option RGB
deriving instance DecidableEq, Repr for Pixel

/-- `PixelGrid`: rows of pixels. -/
def PixelGrid := List (List Pixel)
deriving instance DecidableEq, Repr for PixelGrid

/-- Cardinal movement directions (`Direction` of the protocol package). -/
inductive Direction where
  | up
  | down
  | left
  | right
deriving DecidableEq, Repr

/-- JS `Map.get`: first (and only, keys being unique) entry with the key. -/
def mapGet {α : Type} (m : List (String × α)) (k : String) : Option α :=
  (m.find? (fun p => p.1 = k)).map (fun p => p.2)

/-- JS `Map.set`: update in place when the key exists, append otherwise. -/
def mapSet {α : Type} (m : List (String × α)) (k : String) (v : α) :
    List (String × α) :=
  if m.any (fun p => p.1 = k) then
    m.map (fun p => if p.1 = k then (k, v) else p)
  else
    m ++ [(k, v)]

/-!
## ViewportRenderer.scaleFrame (viewport-renderer.ts)

```ts
private scaleFrame(frame, targetWidth, targetHeight) {
  const srcHeight = frame.length;
  const srcWidth = frame[0]?.length ?? 0;
  if (srcWidth === targetWidth && srcHeight === targetHeight) return frame;
  const result = [];
  for (let y = 0; y < targetHeight; y++) {
    const row = [];
    const srcY = Math.floor(y * srcHeight / targetHeight);
    for (let x = 0; x < targetWidth; x++) {
      const srcX = Math.floor(x * srcWidth / targetWidth);
      row.push(frame[srcY]?.[srcX] ?? null);
    }
    result.push(row);
  }
  return result;
}
```
-/

/-- Nearest-neighbour scaling of a sprite frame, from
`ViewportRenderer.scaleFrame`. -/
def scaleFrame (frame : PixelGrid) (targetWidth targetHeight : Nat) :
    PixelGrid :=
  let srcHeight := frame.length
  let srcWidth := (frame.head?.map List.length).getD 0
  if srcWidth = targetWidth ∧ srcHeight = targetHeight then
    frame
  else
    (List.range targetHeight).map (fun y =>
      let srcY := y * srcHeight / targetHeight
      (List.range targetWidth).map (fun x =>
        let srcX := x * srcWidth / targetWidth
        (((frame.get? srcY).bind (fun row => row.get? srcX)).getD none)))

/-- C8: nearest-neighbour scaling is the identity whenever the source grid
already has the target dimensions: no resampling, the very same grid is
returned. -/
theorem scaleFrame_idempotent (frame : PixelGrid) (w h : Nat)
    (hh : frame.length = h)
    (hw : (frame.head?.map List.length).getD 0 = w) :
    scaleFrame frame w h = frame := by
  unfold scaleFrame
  simp [hh, hw]

/-- Witness for C8 on a concrete 2×1 grid. -/
theorem scaleFrame_idempotent_witness :
    scaleFrame [[some ⟨255, 200, 50⟩, none]] 2 1 =
      [[some ⟨255, 200, 50⟩, none]] :=
  scaleFrame_idempotent [[some ⟨255, 200, 50⟩, none]] 2 1 rfl rfl

/-!
## TileProvider terrain classification (tile-provider.ts)

```ts
private getTileIdFromTerrain(elevation, moisture, _rand) {
  if (elevation < 0.3) return 'water';
  if (elevation < 0.35) return 'sand';
  if (elevation > 0.75) return 'stone';
  if (moisture < 0.35) return 'dirt';
  return 'grass';
}
```

Walkability of generated terrain tiles, from the terrain generation
pipeline (`const walkable = terrain !== 'water'`, and the animated
water tile is built with `walkable: false`).
-/

/-- Terrain classification thresholds of `TileProvider.getTileIdFromTerrain`.
The `_rand` argument of the source is unused there and omitted. -/
def getTileIdFromTerrain (elevation moisture : ℚ) : String :=
  if elevation < 3/10 then "water"
  else if elevation < 35/100 then "sand"
  else if elevation > 75/100 then "stone"
  else if moisture < 35/100 then "dirt"
  else "grass"

/-- Walkability assigned to a generated terrain tile
(`const walkable = terrain !== 'water'` in the terrain generator). -/
def terrainWalkable (terrain : String) : Bool :=
  terrain ≠ "water"

/-- C6: terrain classification follows the documented thresholds for every
(elevation, moisture) pair, and an elevation sample of 0.25 classifies as
water, which is not walkable. -/
theorem terrain_classification_thresholds (e m : ℚ) :
    (e < 3/10 → getTileIdFromTerrain e m = "water" ∧
      terrainWalkable (getTileIdFromTerrain e m) = false) ∧
    (3/10 ≤ e → e < 35/100 → getTileIdFromTerrain e m = "sand") ∧
    (e > 75/100 → getTileIdFromTerrain e m = "stone") ∧
    (35/100 ≤ e → e ≤ 75/100 → m < 35/100 →
      getTileIdFromTerrain e m = "dirt") ∧
    (35/100 ≤ e → e ≤ 75/100 → 35/100 ≤ m →
      getTileIdFromTerrain e m = "grass") ∧
    (getTileIdFromTerrain (1/4) m = "water" ∧
      terrainWalkable (getTileIdFromTerrain (1/4) m) = false) := by
  unfold getTileIdFromTerrain terrainWalkable
  refine ⟨?_, ?_, ?_, ?_, ?_, ?_⟩
  · intro h; rw [if_pos h]; exact ⟨rfl, by decide⟩
  · intro h1 h2
    rw [if_neg (by linarith), if_pos h2]
  · intro h
    rw [if_neg (by linarith), if_neg (by linarith), if_pos h]
  · intro h1 h2 h3
    rw [if_neg (by linarith), if_neg (by linarith), if_neg (by linarith),
      if_pos h3]
  · intro h1 h2 h3
    rw [if_neg (by linarith), if_neg (by linarith), if_neg (by linarith),
      if_neg (by linarith)]
  · rw [if_pos (by norm_num)]; exact ⟨rfl, by decide⟩

/-- Witness for C6 at elevation 0.25, moisture 0.5. -/
theorem terrain_classification_thresholds_witness :
    getTileIdFromTerrain (1/4) (1/2) = "water" ∧
      terrainWalkable (getTileIdFromTerrain (1/4) (1/2)) = false :=
  ((terrain_classification_thresholds (1/4) (1/2)).1 (by norm_num))

/-!
## Brightness variant cache (brightness-cache.ts)

```ts
export const BRIGHTNESS_LEVELS = [0.7, 0.85, 1.0, 1.15, 1.3] as const;
export function quantizeBrightness(brightness) {
  let closest = BRIGHTNESS_LEVELS[0]!;
  let minDist = Math.abs(brightness - closest);
  for (const level of BRIGHTNESS_LEVELS) {
    const dist = Math.abs(brightness - level);
    if (dist < minDist) { minDist = dist; closest = level; }
  }
  return closest;
}
```
-/

/-- The five pre-computed brightness levels. -/
def BRIGHTNESS_LEVELS : List ℚ := [7/10, 17/20, 1, 23/20, 13/10]

/-- One iteration of the `quantizeBrightness` loop: replace the running
closest level exactly when the new distance is strictly smaller. -/
def quantizeStep (b : ℚ) (acc : ℚ × ℚ) (level : ℚ) : ℚ × ℚ :=
  if |b - level| < acc.2 then (level, |b - level|) else acc

/-- `quantizeBrightness`: nearest pre-computed level, scanning the levels
in ascending order, starting from the first level. -/
def quantizeBrightness (b : ℚ) : ℚ :=
  (BRIGHTNESS_LEVELS.foldl (quantizeStep b) (7/10, |b - 7/10|)).1

/-- JS `Math.round`: round half toward positive infinity. -/
def jsRound (q : ℚ) : ℤ := ⌊q + 1/2⌋

/-- `applyBrightnessToColor`: scale each channel, round, clamp to 0..255. -/
def applyBrightnessToColor (c : RGB) (brightness : ℚ) : RGB :=
  { r := min 255 (max 0 (jsRound (c.r * brightness))),
    g := min 255 (max 0 (jsRound (c.g * brightness))),
    b := min 255 (max 0 (jsRound (c.b * brightness))) }

/-- `applyBrightnessToGrid`: identity at neutral brightness, otherwise
per-pixel colour scaling (transparent pixels stay transparent). -/
def applyBrightnessToGrid (g : PixelGrid) (brightness : ℚ) : PixelGrid :=
  if brightness = 1 then g
  else g.map (fun row =>
    row.map (fun pixel => Option.map (applyBrightnessToColor · brightness) pixel))

/-- State of `BrightnessVariantCache`: the variant map, the LRU access
list, and the capacity bound.  The source keys the map by the string
`id + ":" + quantized.toFixed(2)`; the quantized level always is one of
the five two-decimal levels, so the `(id, level)` pair used here renders
the same key. -/
structure BrightnessCacheState where
  cache : List ((String × ℚ) × PixelGrid)
  accessOrder : List (String × ℚ)
  maxSize : Nat
deriving DecidableEq

/-- Lookup in the brightness-variant map (JS `Map.get`). -/
def bvcLookup (cache : List ((String × ℚ) × PixelGrid)) (k : String × ℚ) :
    Option PixelGrid :=
  (cache.find? (fun p => p.1 = k)).map (fun p => p.2)

/-- `Map.set` with an `(id, level)` key. -/
def bvcSet (cache : List ((String × ℚ) × PixelGrid)) (k : String × ℚ)
    (v : PixelGrid) : List ((String × ℚ) × PixelGrid) :=
  if cache.any (fun p => p.1 = k) then
    cache.map (fun p => if p.1 = k then (k, v) else p)
  else
    cache ++ [(k, v)]

/-- The eviction loop of `BrightnessVariantCache.get`: while the map is at
or above capacity and the access list is nonempty, shift the oldest key
off the access list and delete it from the map. -/
def bvcEvict (cache : List ((String × ℚ) × PixelGrid))
    (accessOrder : List (String × ℚ)) (maxSize : Nat) :
    List ((String × ℚ) × PixelGrid) × List (String × ℚ) :=
  match accessOrder with
  | [] => (cache, [])
  | oldest :: rest =>
    if maxSize ≤ cache.length then
      bvcEvict (cache.filter (fun p => ¬ p.1 = oldest)) rest maxSize
    else
      (cache, oldest :: rest)

/-- `BrightnessVariantCache.get`: quantize, fast-path at the neutral
level, else cached lookup with LRU access bookkeeping, else generate,
evict at capacity, insert. -/
def bvcGet (st : BrightnessCacheState) (id : String) (grid : PixelGrid)
    (brightness : ℚ) : PixelGrid × BrightnessCacheState :=
  let quantized := quantizeBrightness brightness
  if quantized = 1 then
    (grid, st)
  else
    let key : String × ℚ := (id, quantized)
    match bvcLookup st.cache key with
    | some cached =>
      let ao :=
        if key ∈ st.accessOrder then st.accessOrder.erase key ++ [key]
        else st.accessOrder
      (cached, { st with accessOrder := ao })
    | none =>
      let variant := applyBrightnessToGrid grid quantized
      let evicted := bvcEvict st.cache st.accessOrder st.maxSize
      (variant,
        { st with
          cache := bvcSet evicted.1 key variant,
          accessOrder := evicted.2 ++ [key] })


/-- Comparing absolute distances via squares (≤ version). -/
lemma abs_sub_le_abs_sub {b x y : ℚ}
    (h : (b - x) * (b - x) ≤ (b - y) * (b - y)) : |b - x| ≤ |b - y| := by
  nlinarith [abs_nonneg (b - x), abs_nonneg (b - y),
    abs_mul_abs_self (b - x), abs_mul_abs_self (b - y)]

/-- Comparing absolute distances via squares (< version). -/
lemma abs_sub_lt_abs_sub {b x y : ℚ}
    (h : (b - x) * (b - x) < (b - y) * (b - y)) : |b - x| < |b - y| := by
  nlinarith [abs_nonneg (b - x), abs_nonneg (b - y),
    abs_mul_abs_self (b - x), abs_mul_abs_self (b - y)]

/-- Equal absolute distances have equal squares. -/
lemma sq_eq_of_abs_sub_eq {b x y : ℚ} (h : |b - x| = |b - y|) :
    (b - x) * (b - x) = (b - y) * (b - y) := by
  have h2 := congrArg (fun t => t * t) h
  simpa [abs_mul_abs_self] using h2

/-- A `quantizeBrightness` loop iteration that keeps the accumulator. -/
lemma quantizeStep_keep {b l c d : ℚ} (h : d ≤ |b - l|) :
    quantizeStep b (c, d) l = (c, d) := by
  unfold quantizeStep
  exact if_neg (not_lt.2 h)

/-- A `quantizeBrightness` loop iteration that replaces the accumulator. -/
lemma quantizeStep_update {b l c d : ℚ} (h : |b - l| < d) :
    quantizeStep b (c, d) l = (l, |b - l|) := by
  unfold quantizeStep
  exact if_pos h

/-- Closed form of `quantizeBrightness`: the level regions are separated by
the midpoints 0.775, 0.925, 1.075, 1.225, and the lower level wins on the
midpoints themselves. -/
lemma quantizeBrightness_closed (b : ℚ) :
    quantizeBrightness b =
      if b ≤ 31/40 then 7/10
      else if b ≤ 37/40 then 17/20
      else if b ≤ 43/40 then 1
      else if b ≤ 49/40 then 23/20
      else 13/10 := by
  have h0 : quantizeStep b (7/10, |b - 7/10|) (7/10) = (7/10, |b - 7/10|) :=
    quantizeStep_keep (le_refl _)
  unfold quantizeBrightness BRIGHTNESS_LEVELS
  rcases le_or_lt b (31/40) with hr | hr1
  · rw [if_pos hr]
    rw [List.foldl_cons, h0, List.foldl_cons,
      quantizeStep_keep (abs_sub_le_abs_sub (by nlinarith)),
      List.foldl_cons,
      quantizeStep_keep (abs_sub_le_abs_sub (by nlinarith)),
      List.foldl_cons,
      quantizeStep_keep (abs_sub_le_abs_sub (by nlinarith)),
      List.foldl_cons,
      quantizeStep_keep (abs_sub_le_abs_sub (by nlinarith)),
      List.foldl_nil]
  · rw [if_neg (not_le.2 hr1)]
    rcases le_or_lt b (37/40) with hr | hr2
    · rw [if_pos hr]
      rw [List.foldl_cons, h0, List.foldl_cons,
        quantizeStep_update (abs_sub_lt_abs_sub (by nlinarith)),
        List.foldl_cons,
        quantizeStep_keep (abs_sub_le_abs_sub (by nlinarith)),
        List.foldl_cons,
        quantizeStep_keep (abs_sub_le_abs_sub (by nlinarith)),
        List.foldl_cons,
        quantizeStep_keep (abs_sub_le_abs_sub (by nlinarith)),
        List.foldl_nil]
    · rw [if_neg (not_le.2 hr2)]
      rcases le_or_lt b (43/40) with hr | hr3
      · rw [if_pos hr]
        rw [List.foldl_cons, h0, List.foldl_cons,
          quantizeStep_update (abs_sub_lt_abs_sub (by nlinarith)),
          List.foldl_cons,
          quantizeStep_update (abs_sub_lt_abs_sub (by nlinarith)),
          List.foldl_cons,
          quantizeStep_keep (abs_sub_le_abs_sub (by nlinarith)),
          List.foldl_cons,
          quantizeStep_keep (abs_sub_le_abs_sub (by nlinarith)),
          List.foldl_nil]
      · rw [if_neg (not_le.2 hr3)]
        rcases le_or_lt b (49/40) with hr | hr4
        · rw [if_pos hr]
          rw [List.foldl_cons, h0, List.foldl_cons,
            quantizeStep_update (abs_sub_lt_abs_sub (by nlinarith)),
            List.foldl_cons,
            quantizeStep_update (abs_sub_lt_abs_sub (by nlinarith)),
            List.foldl_cons,
            quantizeStep_update (abs_sub_lt_abs_sub (by nlinarith)),
            List.foldl_cons,
            quantizeStep_keep (abs_sub_le_abs_sub (by nlinarith)),
            List.foldl_nil]
        · rw [if_neg (not_le.2 hr4)]
          rw [List.foldl_cons, h0, List.foldl_cons,
            quantizeStep_update (abs_sub_lt_abs_sub (by nlinarith)),
            List.foldl_cons,
            quantizeStep_update (abs_sub_lt_abs_sub (by nlinarith)),
            List.foldl_cons,
            quantizeStep_update (abs_sub_lt_abs_sub (by nlinarith)),
            List.foldl_cons,
            quantizeStep_update (abs_sub_lt_abs_sub (by nlinarith)),
            List.foldl_nil]

/-- C5: brightness quantization picks the nearest level among
{0.7, 0.85, 1.0, 1.15, 1.3}, the lower level wins exact-distance ties,
a request of 0.92 resolves to 0.85, and at the neutral quantized level
`get` returns the source grid with the cache state untouched. -/
theorem brightness_quantization_correct :
    (∀ b : ℚ, ∀ l ∈ BRIGHTNESS_LEVELS,
      |b - quantizeBrightness b| ≤ |b - l|) ∧
    (∀ b : ℚ, ∀ l ∈ BRIGHTNESS_LEVELS,
      |b - quantizeBrightness b| = |b - l| → quantizeBrightness b ≤ l) ∧
    quantizeBrightness (92/100) = 17/20 ∧
    (∀ (st : BrightnessCacheState) (id : String) (grid : PixelGrid)
      (b : ℚ), quantizeBrightness b = 1 → bvcGet st id grid b = (grid, st)) := by
  refine ⟨?_, ?_, ?_, ?_⟩
  · intro b l hl
    simp only [BRIGHTNESS_LEVELS, List.mem_cons, List.not_mem_nil,
      or_false] at hl
    rw [quantizeBrightness_closed]
    split_ifs with h1 h2 h3 h4 <;>
      rcases hl with rfl | rfl | rfl | rfl | rfl <;>
      (try push_neg at h1 h2 h3 h4) <;>
      exact abs_sub_le_abs_sub (by nlinarith)
  · intro b l hl heq
    simp only [BRIGHTNESS_LEVELS, List.mem_cons, List.not_mem_nil,
      or_false] at hl
    rw [quantizeBrightness_closed] at heq ⊢
    have hsq := sq_eq_of_abs_sub_eq heq
    revert hsq
    split_ifs at heq ⊢ with h1 h2 h3 h4 <;>
      rcases hl with rfl | rfl | rfl | rfl | rfl <;>
      (try push_neg at h1 h2 h3 h4) <;>
      intro hsq <;>
      nlinarith
  · rw [quantizeBrightness_closed]; norm_num
  · intro st id grid b hq
    unfold bvcGet
    simp [hq]

/-- Witness for C5: the nearest-level bound at 0.92 against level 1.0,
lower-tie-break at the exact midpoint 0.775, the 0.92 resolution, and
the neutral fast path on a concrete cache state. -/
theorem brightness_quantization_correct_witness :
    |(92 : ℚ)/100 - quantizeBrightness (92/100)| ≤ |(92 : ℚ)/100 - 1| ∧
    quantizeBrightness (92/100) = 17/20 ∧
    bvcGet ⟨[], [], 2000⟩ "grass" [] 1 = ([], ⟨[], [], 2000⟩) :=
  ⟨brightness_quantization_correct.1 (92/100) 1
      (by simp [BRIGHTNESS_LEVELS]),
   brightness_quantization_correct.2.2.1,
   brightness_quantization_correct.2.2.2 ⟨[], [], 2000⟩ "grass" [] 1
     (by rw [quantizeBrightness_closed]; norm_num)⟩

/-!
## Prediction cache (prediction-cache.ts)

State of the `PredictionCache` class: the pre-rendered prediction map
(JS `Map`, modelled as an insertion-ordered association list), the
movement history, the three learned probabilities and the enabled flag.
`maxHistory` is the constant 10 in the source.
-/

/-- `leftDirection` of prediction-cache.ts. -/
def leftDirection : Direction → Direction
  | .up => .left
  | .down => .right
  | .left => .down
  | .right => .up

/-- `rightDirection` of prediction-cache.ts. -/
def rightDirection : Direction → Direction
  | .up => .right
  | .down => .left
  | .left => .up
  | .right => .down

/-- `nextPosition`: one tile ahead in a direction (screen coordinates,
`up` decreases y). -/
def nextPosition (x y : Int) : Direction → Int × Int
  | .up => (x, y - 1)
  | .down => (x, y + 1)
  | .left => (x - 1, y)
  | .right => (x + 1, y)

/-- The four speculative hypotheses (`PredictionType`). -/
inductive PredictionType where
  | continue_
  | stop
  | turn_left
  | turn_right
deriving DecidableEq, Repr

/-- A movement history entry. -/
structure MovementEntry where
  x : Int
  y : Int
  direction : Direction
  timestamp : Int
deriving DecidableEq, Repr

/-- A pre-rendered prediction (`PreRenderedPrediction`). -/
structure PreRenderedPrediction where
  type : PredictionType
  probability : ℚ
  playerX : Int
  playerY : Int
  direction : Direction
  output : String
  bytesSize : Int
  timestamp : Int
deriving DecidableEq

/-- `maxHistory` field of `PredictionCache` (constant 10). -/
def maxHistory : Nat := 10

/-- Mutable state of a `PredictionCache` instance. -/
structure PredictionCacheState where
  predictions : List (String × PreRenderedPrediction)
  movementHistory : List MovementEntry
  enabled : Bool
  continueProbability : ℚ
  stopProbability : ℚ
  turnProbability : ℚ
deriving DecidableEq

/-- Field initialisers of `PredictionCache`. -/
def initPredictionCache : PredictionCacheState :=
  { predictions := []
    movementHistory := []
    enabled := false
    continueProbability := 45/100
    stopProbability := 30/100
    turnProbability := 25/100 }

/-- `PredictionCache.clear`: empties the prediction map (only). -/
def PredictionCacheState.clear (st : PredictionCacheState) :
    PredictionCacheState :=
  { st with predictions := [] }

/-- `PredictionCache.enable`. -/
def PredictionCacheState.enable (st : PredictionCacheState) :
    PredictionCacheState :=
  { st with enabled := true }

/-- `PredictionCache.disable`: unset the flag, then `clear()`. -/
def PredictionCacheState.disable (st : PredictionCacheState) :
    PredictionCacheState :=
  PredictionCacheState.clear { st with enabled := false }

/-- The `continue` classification of a consecutive movement pair: the
position advanced to the direction-projected next tile with the same
direction. -/
def isContinue (prev curr : MovementEntry) : Bool :=
  let expected := nextPosition prev.x prev.y prev.direction
  curr.x = expected.1 && curr.y = expected.2 &&
    curr.direction = prev.direction

/-- The `stop` classification: same position (tested after `continue`). -/
def isStop (prev curr : MovementEntry) : Bool :=
  !isContinue prev curr && (curr.x = prev.x && curr.y = prev.y)

/-- The `turn` classification: everything else. -/
def isTurn (prev curr : MovementEntry) : Bool :=
  !isContinue prev curr && !(curr.x = prev.x && curr.y = prev.y)

/-- `PredictionCache.updateProbabilities`: classify each consecutive pair
of the history, then blend the empirical distribution with the defaults
at learning rate 0.3; the turn weight is the remainder to 1. -/
def updateProbabilities (st : PredictionCacheState) : PredictionCacheState :=
  if st.movementHistory.length < 3 then st
  else
    let pairs := st.movementHistory.zip st.movementHistory.tail
    let continues := (pairs.filter fun p => isContinue p.1 p.2).length
    let stops := (pairs.filter fun p => isStop p.1 p.2).length
    let turns := (pairs.filter fun p => isTurn p.1 p.2).length
    let total := continues + stops + turns
    if 0 < total then
      let alpha : ℚ := 3/10
      let c := alpha * ((continues : ℚ) / (total : ℚ)) + (1 - alpha) * (45/100)
      let s := alpha * ((stops : ℚ) / (total : ℚ)) + (1 - alpha) * (30/100)
      { st with
        continueProbability := c
        stopProbability := s
        turnProbability := 1 - c - s }
    else st

/-- The history-trimming loop of `recordMovement`
(`while (history.length > maxHistory) history.shift()`). -/
def trimHistory (l : List MovementEntry) (maxH : Nat) : List MovementEntry :=
  if l.length > maxH then trimHistory l.tail maxH else l
termination_by l.length
decreasing_by
  cases l with
  | nil => simp at *
  | cons a t => simp

/-- `PredictionCache.recordMovement`: append the entry, trim the history
to `maxHistory`, update the probabilities; no-op when disabled. -/
def recordMovement (st : PredictionCacheState) (x y : Int) (d : Direction)
    (now : Int) : PredictionCacheState :=
  if st.enabled = false then st
  else
    updateProbabilities
      { st with
        movementHistory :=
          trimHistory (st.movementHistory ++ [⟨x, y, d, now⟩]) maxHistory }

/-- The string tag of a prediction type. -/
def predTypeStr : PredictionType → String
  | .continue_ => "continue"
  | .stop => "stop"
  | .turn_left => "turn_left"
  | .turn_right => "turn_right"

/-- The string tag of a direction. -/
def dirStr : Direction → String
  | .up => "up"
  | .down => "down"
  | .left => "left"
  | .right => "right"

/-- `PredictionCache.predictionKey`: the template string
`type ++ ":" ++ x ++ "," ++ y ++ ":" ++ dir`. -/
def predictionKey (t : PredictionType) (x y : Int) (d : Direction) : String :=
  predTypeStr t ++ ":" ++ toString x ++ "," ++ toString y ++ ":" ++ dirStr d

/-- `PredictionCache.preRenderPredictions`: when enabled, clear the map
and store one fresh entry per hypothesis.  The composition of the
`renderFrame` callback with `renderCRLE` is abstracted as `render`,
giving the `(output, bytesWithCRLE)` pair per hypothesis; the `stop`
entry uses the empty diff, as in the source. -/
def preRenderPredictions (st : PredictionCacheState) (x y : Int)
    (d : Direction) (now : Int) (render : PredictionType → String × Int) :
    PredictionCacheState :=
  if st.enabled = false then st
  else
    let cpos := nextPosition x y d
    let contR := render .continue_
    let m1 := mapSet [] (predictionKey .continue_ cpos.1 cpos.2 d)
      { type := .continue_, probability := st.continueProbability,
        playerX := cpos.1, playerY := cpos.2, direction := d,
        output := contR.1, bytesSize := contR.2, timestamp := now }
    let m2 := mapSet m1 (predictionKey .stop x y d)
      { type := .stop, probability := st.stopProbability,
        playerX := x, playerY := y, direction := d,
        output := "", bytesSize := 0, timestamp := now }
    let ldir := leftDirection d
    let leftR := render .turn_left
    let m3 := mapSet m2 (predictionKey .turn_left x y ldir)
      { type := .turn_left, probability := st.turnProbability / 2,
        playerX := x, playerY := y, direction := ldir,
        output := leftR.1, bytesSize := leftR.2, timestamp := now }
    let rdir := rightDirection d
    let rightR := render .turn_right
    let m4 := mapSet m3 (predictionKey .turn_right x y rdir)
      { type := .turn_right, probability := st.turnProbability / 2,
        playerX := x, playerY := y, direction := rdir,
        output := rightR.1, bytesSize := rightR.2, timestamp := now }
    { st with predictions := m4 }

/-- The lookup loop of `checkPrediction`: try each hypothesis kind in
order; a present entry is returned only while it is fresh
(`Date.now() - timestamp < 500`), a stale or absent entry falls through
to the next kind. -/
def checkLoop (preds : List (String × PreRenderedPrediction)) (x y : Int)
    (d : Direction) (now : Int) :
    List PredictionType → Option PreRenderedPrediction
  | [] => none
  | t :: rest =>
    match mapGet preds (predictionKey t x y d) with
    | some p =>
      if now - p.timestamp < 500 then some p
      else checkLoop preds x y d now rest
    | none => checkLoop preds x y d now rest

/-- `PredictionCache.checkPrediction`. -/
def checkPrediction (st : PredictionCacheState) (x y : Int) (d : Direction)
    (now : Int) : Option PreRenderedPrediction :=
  if st.enabled = false then none
  else
    checkLoop st.predictions x y d now
      [.continue_, .stop, .turn_left, .turn_right]

/-- A concrete cache state with one recorded movement, used to exhibit
that `disable()` does not clear the movement history. -/
def disableSampleState : PredictionCacheState :=
  { predictions := []
    movementHistory := [⟨0, 0, .up, 0⟩]
    enabled := true
    continueProbability := 45/100
    stopProbability := 30/100
    turnProbability := 25/100 }

/-- C1 counterexample: on a state holding one movement-history entry,
`disable()` empties the predictions but the movement history is still
nonempty — disabling does not clear the recorded movement history. -/
theorem disable_clears_history_counterexample :
    ¬ ((disableSampleState.disable).predictions = [] ∧
        (disableSampleState.disable).movementHistory = []) := by
  simp [disableSampleState, PredictionCacheState.disable,
    PredictionCacheState.clear]

/-- C1 (amended): `disable()` clears every stored prediction entry and
unsets the enabled flag, but leaves the recorded movement history
untouched. -/
theorem disable_clears_predictions_only (st : PredictionCacheState) :
    (st.disable).predictions = [] ∧
    (st.disable).movementHistory = st.movementHistory ∧
    (st.disable).enabled = false := by
  simp [PredictionCacheState.disable, PredictionCacheState.clear]

/-- Sum of the three learned probabilities. -/
def probSum (st : PredictionCacheState) : ℚ :=
  st.continueProbability + st.stopProbability + st.turnProbability

/-- C4: the three probabilities sum to exactly 1 initially
(0.45 + 0.30 + 0.25) and after every `updateProbabilities` and every
`recordMovement`, whatever the movement history. -/
theorem probability_conservation :
    probSum initPredictionCache = 1 ∧
    (∀ st : PredictionCacheState, probSum st = 1 →
      probSum (updateProbabilities st) = 1) ∧
    (∀ (st : PredictionCacheState) (x y : Int) (d : Direction) (now : Int),
      probSum st = 1 → probSum (recordMovement st x y d now) = 1) := by
  have hupd : ∀ st : PredictionCacheState, probSum st = 1 →
      probSum (updateProbabilities st) = 1 := by
    intro st h
    unfold updateProbabilities
    split_ifs with h1
    · exact h
    · dsimp only
      split_ifs with h2
      · simp only [probSum]
        ring
      · exact h
  refine ⟨by norm_num [probSum, initPredictionCache], hupd, ?_⟩
  intro st x y d now h
  unfold recordMovement
  split_ifs with h1
  · exact h
  · exact hupd _ h

/-- Witness for C4: the initial state's probabilities are conserved by an
`updateProbabilities` call and by a `recordMovement` call. -/
theorem probability_conservation_witness :
    probSum (updateProbabilities initPredictionCache) = 1 ∧
    probSum (recordMovement initPredictionCache 0 0 .down 0) = 1 :=
  ⟨probability_conservation.2.1 initPredictionCache
      probability_conservation.1,
   probability_conservation.2.2 initPredictionCache 0 0 .down 0
      probability_conservation.1⟩

/-- A returned entry of the `checkPrediction` loop is fresh and comes from
a matching key. -/
lemma checkLoop_some {preds : List (String × PreRenderedPrediction)}
    {x y : Int} {d : Direction} {now : Int} {ts : List PredictionType}
    {p : PreRenderedPrediction}
    (h : checkLoop preds x y d now ts = some p) :
    now - p.timestamp < 500 ∧
      ∃ t ∈ ts, mapGet preds (predictionKey t x y d) = some p := by
  induction ts with
  | nil => simp [checkLoop] at h
  | cons t rest ih =>
    rw [checkLoop] at h
    cases hm : mapGet preds (predictionKey t x y d) with
    | none =>
      rw [hm] at h
      rcases ih h with ⟨hf, t', ht', hm'⟩
      exact ⟨hf, t', List.mem_cons_of_mem _ ht', hm'⟩
    | some q =>
      rw [hm] at h
      dsimp only at h
      by_cases hfresh : now - q.timestamp < 500
      · rw [if_pos hfresh] at h
        cases h
        exact ⟨hfresh, t, List.mem_cons_self _ _, hm⟩
      · rw [if_neg hfresh] at h
        rcases ih h with ⟨hf, t', ht', hm'⟩
        exact ⟨hf, t', List.mem_cons_of_mem _ ht', hm'⟩

/-- When every matching entry is stale, the `checkPrediction` loop misses. -/
lemma checkLoop_none_of_stale {preds : List (String × PreRenderedPrediction)}
    {x y : Int} {d : Direction} {now : Int} {ts : List PredictionType}
    (h : ∀ t ∈ ts, ∀ p, mapGet preds (predictionKey t x y d) = some p →
      500 ≤ now - p.timestamp) :
    checkLoop preds x y d now ts = none := by
  induction ts with
  | nil => rfl
  | cons t rest ih =>
    rw [checkLoop]
    cases hm : mapGet preds (predictionKey t x y d) with
    | none => exact ih fun t' ht' => h t' (List.mem_cons_of_mem _ ht')
    | some q =>
      dsimp only
      rw [if_neg (not_lt.2 (h t (List.mem_cons_self _ _) q hm))]
      exact ih fun t' ht' => h t' (List.mem_cons_of_mem _ ht')

/-- C7: `checkPrediction` returns an entry only when its age at lookup
time is strictly under 500 ms and the key matches; when every entry
matching the four candidate keys is 500 ms old or older, the lookup is a
miss (`null`) even though the key matches exactly. -/
theorem prediction_freshness (st : PredictionCacheState) (x y : Int)
    (d : Direction) (now : Int) :
    (∀ p, checkPrediction st x y d now = some p →
      now - p.timestamp < 500 ∧
        ∃ t, mapGet st.predictions (predictionKey t x y d) = some p) ∧
    ((∀ (t : PredictionType) (p : PreRenderedPrediction),
        mapGet st.predictions (predictionKey t x y d) = some p →
        500 ≤ now - p.timestamp) →
      checkPrediction st x y d now = none) := by
  constructor
  · intro p hp
    unfold checkPrediction at hp
    by_cases h1 : st.enabled = false
    · rw [if_pos h1] at hp
      exact Option.noConfusion hp
    · rw [if_neg h1] at hp
      rcases checkLoop_some hp with ⟨hf, t, _, hm⟩
      exact ⟨hf, t, hm⟩
  · intro hstale
    unfold checkPrediction
    by_cases h1 : st.enabled = false
    · rw [if_pos h1]
    · rw [if_neg h1]
      exact checkLoop_none_of_stale fun t _ => hstale t

/-- A stale `stop` prediction recorded at time 0 for (0,0) facing up. -/
def staleEntry : PreRenderedPrediction :=
  { type := .stop, probability := 30/100, playerX := 0, playerY := 0,
    direction := .up, output := "", bytesSize := 0, timestamp := 0 }

/-- A cache state holding a single stale `stop` prediction recorded at
time 0 for position (0,0) facing up. -/
def staleSampleState : PredictionCacheState :=
  { predictions := [(predictionKey .stop 0 0 .up, staleEntry)]
    movementHistory := []
    enabled := true
    continueProbability := 45/100
    stopProbability := 30/100
    turnProbability := 25/100 }

/-- Witness for C7: at lookup time 500 the sample entry's age is exactly
500 ms, and the lookup at the exactly matching position and direction is
a miss. -/
theorem prediction_freshness_witness :
    checkPrediction staleSampleState 0 0 .up 500 = none := by
  apply (prediction_freshness staleSampleState 0 0 .up 500).2
  intro t p hm
  cases t with
  | continue_ =>
    rw [show mapGet staleSampleState.predictions
        (predictionKey .continue_ 0 0 .up) = none from rfl] at hm
    exact Option.noConfusion hm
  | stop =>
    rw [show mapGet staleSampleState.predictions
        (predictionKey .stop 0 0 .up) = some staleEntry from rfl] at hm
    cases hm
    decide
  | turn_left =>
    rw [show mapGet staleSampleState.predictions
        (predictionKey .turn_left 0 0 .up) = none from rfl] at hm
    exact Option.noConfusion hm
  | turn_right =>
    rw [show mapGet staleSampleState.predictions
        (predictionKey .turn_right 0 0 .up) = none from rfl] at hm
    exact Option.noConfusion hm

/-- Prediction keys of distinct hypothesis kinds are distinct strings
(the kind tag prefixes the key and no tag is a prefix of another). -/
lemma predictionKey_ne {t u : PredictionType} (x y x' y' : Int)
    (d d' : Direction) (h : t ≠ u) :
    predictionKey t x y d ≠ predictionKey u x' y' d' := by
  intro heq
  have hd := congrArg String.data heq
  cases t <;> cases u <;>
    simp only [predictionKey, predTypeStr] at hd <;>
    first
      | exact h rfl
      | simp [String.data_append] at hd

/-- `updateProbabilities` never touches the prediction map. -/
lemma updateProbabilities_predictions (st : PredictionCacheState) :
    (updateProbabilities st).predictions = st.predictions := by
  unfold updateProbabilities
  split_ifs with h1
  · rfl
  · dsimp only
    split_ifs <;> rfl

/-- `recordMovement` never touches the prediction map. -/
lemma recordMovement_predictions (st : PredictionCacheState) (x y : Int)
    (d : Direction) (now : Int) :
    (recordMovement st x y d now).predictions = st.predictions := by
  unfold recordMovement
  split_ifs with h1
  · rfl
  · rw [updateProbabilities_predictions]

/-- When enabled, `preRenderPredictions` clears the map and stores exactly
one entry per hypothesis kind, under pairwise-distinct keys, all stamped
with the call time. -/
lemma preRender_predictions_spec (st : PredictionCacheState) (x y : Int)
    (d : Direction) (now : Int) (render : PredictionType → String × Int)
    (h : st.enabled = true) :
    ((preRenderPredictions st x y d now render).predictions.map
        (fun e => e.2.type) =
      [.continue_, .stop, .turn_left, .turn_right]) ∧
    (preRenderPredictions st x y d now render).predictions.length = 4 ∧
    ((preRenderPredictions st x y d now render).predictions.map
        (fun e => e.1)).Nodup ∧
    (∀ e ∈ (preRenderPredictions st x y d now render).predictions,
      e.2.timestamp = now) := by
  have h12 := predictionKey_ne (t := .continue_) (u := .stop)
    (nextPosition x y d).1 (nextPosition x y d).2 x y d d (by simp)
  have h13 := predictionKey_ne (t := .continue_) (u := .turn_left)
    (nextPosition x y d).1 (nextPosition x y d).2 x y d (leftDirection d)
    (by simp)
  have h14 := predictionKey_ne (t := .continue_) (u := .turn_right)
    (nextPosition x y d).1 (nextPosition x y d).2 x y d (rightDirection d)
    (by simp)
  have h23 := predictionKey_ne (t := .stop) (u := .turn_left)
    x y x y d (leftDirection d) (by simp)
  have h24 := predictionKey_ne (t := .stop) (u := .turn_right)
    x y x y d (rightDirection d) (by simp)
  have h34 := predictionKey_ne (t := .turn_left) (u := .turn_right)
    x y x y (leftDirection d) (rightDirection d) (by simp)
  unfold preRenderPredictions
  rw [if_neg (by simp [h])]
  dsimp only
  simp [mapSet, h12, h13, h14, h23, h24, h34, Ne.symm h12, Ne.symm h13,
    Ne.symm h14, Ne.symm h23, Ne.symm h24, Ne.symm h34]

/-- The externally reachable operations on a `PredictionCache`. -/
inductive PCOp where
  | enable
  | disable
  | clear
  | record (x y : Int) (d : Direction) (now : Int)
  | preRender (x y : Int) (d : Direction) (now : Int)
      (render : PredictionType → String × Int)
  | check (x y : Int) (d : Direction) (now : Int)

/-- Apply one operation to the cache state (`checkPrediction` reads but
does not mutate). -/
def applyOp (st : PredictionCacheState) : PCOp → PredictionCacheState
  | .enable => st.enable
  | .disable => st.disable
  | .clear => st.clear
  | .record x y d now => recordMovement st x y d now
  | .preRender x y d now render => preRenderPredictions st x y d now render
  | .check _ _ _ _ => st

/-- Run a sequence of operations from a fresh cache. -/
def runOps (ops : List PCOp) : PredictionCacheState :=
  ops.foldl applyOp initPredictionCache

/-- One step keeps the prediction map at four entries or fewer. -/
lemma applyOp_bound (st : PredictionCacheState) (op : PCOp)
    (h : st.predictions.length ≤ 4) :
    (applyOp st op).predictions.length ≤ 4 := by
  cases op with
  | enable => exact h
  | disable => simp [applyOp, PredictionCacheState.disable,
      PredictionCacheState.clear]
  | clear => simp [applyOp, PredictionCacheState.clear]
  | record x y d now =>
    simpa [applyOp, recordMovement_predictions] using h
  | preRender x y d now render =>
    by_cases he : st.enabled = true
    · have := (preRender_predictions_spec st x y d now render he).2.1
      simp only [applyOp]
      omega
    · have he' : st.enabled = false := by
        cases hb : st.enabled
        · rfl
        · exact absurd hb he
      simp only [applyOp, preRenderPredictions, if_pos he']
      exact h
  | check x y d now => exact h

/-- Every state reachable by a sequence of operations keeps the
prediction map at four entries or fewer. -/
lemma runOps_bound (ops : List PCOp) :
    (runOps ops).predictions.length ≤ 4 := by
  have : ∀ (l : List PCOp) (st : PredictionCacheState),
      st.predictions.length ≤ 4 →
      (l.foldl applyOp st).predictions.length ≤ 4 := by
    intro l
    induction l with
    | nil => intro st h; exact h
    | cons op rest ih =>
      intro st h
      exact ih _ (applyOp_bound st op h)
  exact this ops initPredictionCache (by simp [initPredictionCache])

/-- C9: the prediction map never holds more than 4 entries along any
operation sequence; an enabled `preRenderPredictions` stores exactly one
entry per hypothesis kind under four pairwise-distinct keys; and
`clear()` empties the map. -/
theorem prediction_map_invariant :
    (∀ ops : List PCOp, (runOps ops).predictions.length ≤ 4) ∧
    (∀ (st : PredictionCacheState) (x y : Int) (d : Direction) (now : Int)
      (render : PredictionType → String × Int), st.enabled = true →
      ((preRenderPredictions st x y d now render).predictions.map
          (fun e => e.2.type) =
        [.continue_, .stop, .turn_left, .turn_right]) ∧
      (preRenderPredictions st x y d now render).predictions.length = 4 ∧
      ((preRenderPredictions st x y d now render).predictions.map
          (fun e => e.1)).Nodup) ∧
    (∀ st : PredictionCacheState, st.clear.predictions = []) := by
  refine ⟨runOps_bound, ?_, fun st => rfl⟩
  intro st x y d now render h
  rcases preRender_predictions_spec st x y d now render h with
    ⟨ht, hl, hn, _⟩
  exact ⟨ht, hl, hn⟩

/-- Witness for C9: on a freshly enabled cache a pre-render at (0,0)
facing up stores exactly four hypotheses. -/
theorem prediction_map_invariant_witness :
    (preRenderPredictions initPredictionCache.enable 0 0 .up 0
        (fun _ => ("", 0))).predictions.length = 4 :=
  (prediction_map_invariant.2.1 initPredictionCache.enable 0 0 .up 0
      (fun _ => ("", 0)) rfl).2.1

/-!
## Placeholder sprites for players without sprites
(tile-provider.ts `createPlaceholderSprite`, worker-manager.ts
`getPlayerColor` and the missing-sprite substitution, and
viewport-renderer.ts `renderPlaceholderPlayer`).
-/

/-- `BASE_SIZE` of the protocol package: sprites and tiles are 256×256 at
base resolution (the placeholder generator's own comments).  -/
def BASE_SIZE : Nat := 256

/-- `RESOLUTIONS` of the protocol package: the pre-computed zoom levels,
listed in the repository as [26, 51, 77, 102, 128, 154, 179, 205, 230,
256]. -/
def RESOLUTIONS : List Nat := [26, 51, 77, 102, 128, 154, 179, 205, 230, 256]

/-- The four animation frames of one facing direction
(`DirectionFrames`). -/
structure DirectionFrameSets where
  up : List PixelGrid
  down : List PixelGrid
  left : List PixelGrid
  right : List PixelGrid

/-- The `Sprite` record of the protocol package. -/
structure Sprite where
  width : Nat
  height : Nat
  frames : DirectionFrameSets
  resolutions : List (String × DirectionFrameSets)

/-- `downscaleGrid` of tile-provider.ts: nearest-neighbour downscale of a
square grid. -/
def downscaleGrid (grid : PixelGrid) (targetSize : Nat) : PixelGrid :=
  let srcSize := grid.length
  if srcSize = targetSize then grid
  else
    (List.range targetSize).map (fun y =>
      let srcY := y * srcSize / targetSize
      (List.range targetSize).map (fun x =>
        let srcX := x * srcSize / targetSize
        (((grid.get? srcY).bind (fun row => row.get? srcX)).getD none)))

/-- The body-part conditionals of `createPlaceholderSprite.createFrame`,
in original 16×16 coordinates: hair, head, body (base colour), legs
(darkened base colour), else transparent. -/
def placeholderPixel (baseColor darkColor skinColor hairColor : RGB)
    (origY origX : Nat) : Pixel :=
  if origY < 2 ∧ 5 ≤ origX ∧ origX ≤ 10 then some hairColor
  else if 1 ≤ origY ∧ origY < 5 ∧ 5 ≤ origX ∧ origX ≤ 10 then some skinColor
  else if 5 ≤ origY ∧ origY < 10 ∧ 4 ≤ origX ∧ origX ≤ 11 then
    some baseColor
  else if 10 ≤ origY ∧ origY < 15 ∧
      ((5 ≤ origX ∧ origX < 7) ∨ (9 ≤ origX ∧ origX < 11)) then
    some darkColor
  else none

/-- The 256×256 placeholder frame: each pixel maps back to the original
16×16 coordinate space (scale 16 = BASE_SIZE / 16). -/
def createPlaceholderFrame (baseColor darkColor skinColor hairColor : RGB) :
    PixelGrid :=
  let scale := BASE_SIZE / 16
  (List.range BASE_SIZE).map (fun y =>
    let origY := y / scale
    (List.range BASE_SIZE).map (fun x =>
      let origX := x / scale
      placeholderPixel baseColor darkColor skinColor hairColor origY origX))

/-- `createPlaceholderSprite`: a humanoid placeholder in the given base
colour, identical over all four directions and animation frames, with
all resolutions pre-computed.  The darkened colour floors each channel
times 0.6; skin and hair colours are fixed. -/
def createPlaceholderSprite (baseColor : RGB) : Sprite :=
  let darkColor : RGB :=
    { r := Int.fdiv (baseColor.r * 6) 10,
      g := Int.fdiv (baseColor.g * 6) 10,
      b := Int.fdiv (baseColor.b * 6) 10 }
  let skinColor : RGB := { r := 255, g := 220, b := 180 }
  let hairColor : RGB := { r := 60, g := 40, b := 30 }
  let frame := createPlaceholderFrame baseColor darkColor skinColor hairColor
  let baseFrames := [frame, frame, frame, frame]
  { width := BASE_SIZE
    height := BASE_SIZE
    frames := ⟨baseFrames, baseFrames, baseFrames, baseFrames⟩
    resolutions := RESOLUTIONS.map (fun size =>
      let scaledFrame := downscaleGrid frame size
      let scaledFrames := [scaledFrame, scaledFrame, scaledFrame, scaledFrame]
      (toString size, ⟨scaledFrames, scaledFrames, scaledFrames, scaledFrames⟩)) }

/-- Wrap an integer into signed 32-bit range (JS `ToInt32`). -/
def toInt32 (n : Int) : Int := (n + 2^31) % 2^32 - 2^31

/-- One iteration of the `getPlayerColor` hash loop:
`hash = ((hash << 5) - hash) + charCode; hash = hash & hash`.
The shift works on 32-bit wrapped values and `hash & hash` coerces the
sum back to a signed 32-bit integer. -/
def hashStep (h : Int) (c : Nat) : Int :=
  toInt32 (toInt32 (h * 32) - h + c)

/-- `getPlayerColor` of worker-manager.ts: a deterministic colour derived
from the user id by hashing its character codes; the three channels are
bit fields 16–23, 8–15 and 0–7 of the final hash (`>> 16 & 0xFF` is
arithmetic shift = floor division, and `& 0xFF` on a 32-bit value is the
residue mod 256). -/
def getPlayerColor (userId : String) : RGB :=
  let hash := userId.data.foldl (fun h c => hashStep h c.toNat) 0
  { r := (Int.fdiv hash 65536) % 256
    g := (Int.fdiv hash 256) % 256
    b := hash % 256 }

/-- The missing-sprite substitution step of the worker-manager render
loop: a player whose sprite lookup is null and who is not already
loading gets `createPlaceholderSprite(getPlayerColor(userId))`
registered as their sprite. -/
def ensurePlayerSprite (sprites : List (String × Sprite))
    (loading : List String) (userId : String) : List (String × Sprite) :=
  if (mapGet sprites userId).isNone ∧ userId ∉ loading then
    mapSet sprites userId (createPlaceholderSprite (getPlayerColor userId))
  else
    sprites

/-- Viewport configuration (`ViewportConfig`): viewport size in tiles. -/
structure ViewportConfig where
  widthTiles : Int
  heightTiles : Int

/-- `PlayerVisualState` of the protocol package. -/
structure PlayerVisualState where
  userId : String
  username : String
  x : Int
  y : Int
  direction : Direction
  animationFrame : Nat
  isMoving : Bool

/-- Sprite overflow padding of `ViewportRenderer` (constant 0). -/
def spriteOverflowX : Int := 0

/-- Sprite overflow padding of `ViewportRenderer` (constant 0). -/
def spriteOverflowY : Int := 0

/-- One guarded pixel write `buffer[targetY][targetX] = color`, exactly
under the bounds test of the source
(`targetY >= 0 && targetY < buffer.length && targetX >= 0 &&
targetX < (buffer[targetY]?.length ?? 0)`). -/
def gridSet (buffer : PixelGrid) (ty tx : Int) (c : RGB) : PixelGrid :=
  if 0 ≤ ty ∧ ty < (buffer.length : Int) ∧ 0 ≤ tx ∧
      tx < ((((buffer.get? ty.toNat).map List.length).getD 0 : Nat) : Int) then
    buffer.set ty.toNat
      (((buffer.get? ty.toNat).getD []).set tx.toNat (some c))
  else
    buffer

/-- `ViewportRenderer.renderPlaceholderPlayer`: skip players outside the
viewport, otherwise paint a solid square marker of the fixed colour
(255, 200, 50) at the player's tile, with every write bounds-checked. -/
def renderPlaceholderPlayer (cfg : ViewportConfig) (cameraX cameraY : Int)
    (tileRenderSize : Nat) (buffer : PixelGrid)
    (player : PlayerVisualState) : PixelGrid :=
  let screenTileX := player.x - cameraX
  let screenTileY := player.y - cameraY
  if screenTileX < 0 ∨ screenTileX ≥ cfg.widthTiles ∨
      screenTileY < 0 ∨ screenTileY ≥ cfg.heightTiles then
    buffer
  else
    let markerSize := tileRenderSize
    let bufferX := screenTileX * tileRenderSize + spriteOverflowX
    let bufferY := screenTileY * tileRenderSize + spriteOverflowY
    let placeholderColor : RGB := ⟨255, 200, 50⟩
    (List.range markerSize).foldl (fun buf py =>
      (List.range markerSize).foldl (fun buf2 px =>
        gridSet buf2 (bufferY + py) (bufferX + px) placeholderColor) buf)
      buffer

/-- A guarded pixel write never changes the buffer's shape (row count and
row lengths). -/
lemma gridSet_mapLength (b : PixelGrid) (ty tx : Int) (c : RGB) :
    (gridSet b ty tx c).map List.length = b.map List.length := by
  unfold gridSet
  split_ifs with h
  · rcases h with ⟨h1, h2, h3, h4⟩
    have hlt : ty.toNat < b.length := by omega
    apply List.ext_get?_iff.2
    intro n
    by_cases hn : ty.toNat = n
    · subst hn
      rw [List.get?_map, List.get?_map, List.get?_set_eq_of_lt _ hlt]
      obtain ⟨row, hrow⟩ : ∃ row, b.get? ty.toNat = some row := by
        rw [List.get?_eq_get hlt]
        exact ⟨_, rfl⟩
      rw [hrow]
      simp
    · rw [List.get?_map, List.get?_map, List.get?_set_ne _ _ hn]
  · rfl

/-- Folding shape-preserving writes over any index list preserves the
buffer's shape. -/
lemma foldl_mapLength {α : Type} (f : PixelGrid → α → PixelGrid)
    (hf : ∀ b n, (f b n).map List.length = b.map List.length) :
    ∀ (l : List α) (b : PixelGrid),
      (l.foldl f b).map List.length = b.map List.length := by
  intro l
  induction l with
  | nil => intro b; rfl
  | cons n rest ih =>
    intro b
    rw [List.foldl_cons, ih, hf]

/-- A key absent from a map is found after appending it. -/
lemma mapGet_append_of_none {α : Type} {m : List (String × α)} {k : String}
    (h : mapGet m k = none) (v : α) : mapGet (m ++ [(k, v)]) k = some v := by
  induction m with
  | nil => simp [mapGet]
  | cons p rest ih =>
    by_cases hpk : p.1 = k
    · simp [mapGet, List.find?_cons, hpk] at h
    · simp only [mapGet, List.cons_append, List.find?_cons] at h ⊢
      rw [show (decide (p.1 = k)) = false from by simp [hpk]] at h ⊢
      dsimp only at h ⊢
      exact ih h

/-- A key absent from a map fails the `Map.has` test. -/
lemma any_eq_false_of_mapGet_none {α : Type} {m : List (String × α)}
    {k : String} (h : mapGet m k = none) :
    m.any (fun p => p.1 = k) = false := by
  have h' : m.find? (fun p => p.1 = k) = none := by
    cases hf : m.find? (fun p => p.1 = k) with
    | none => rfl
    | some q => rw [mapGet, hf] at h; cases h
  rw [List.any_eq_false]
  intro x hx
  have := List.find?_eq_none.1 h' x hx
  simpa using this

/-- C2: the placeholder colour is a deterministic function of the player
identifier producing valid 8-bit channels; a player whose sprite lookup
is null (and who is not already loading) gets exactly
`createPlaceholderSprite (getPlayerColor userId)` registered — the same
identifier always yields the same placeholder — and the renderer-side
placeholder marker never fails: it is total and preserves the buffer
shape. -/
theorem placeholder_substitution_deterministic :
    (∀ u : String,
      0 ≤ (getPlayerColor u).r ∧ (getPlayerColor u).r < 256 ∧
      0 ≤ (getPlayerColor u).g ∧ (getPlayerColor u).g < 256 ∧
      0 ≤ (getPlayerColor u).b ∧ (getPlayerColor u).b < 256) ∧
    (∀ (sprites : List (String × Sprite)) (loading : List String)
      (u : String), mapGet sprites u = none → u ∉ loading →
      mapGet (ensurePlayerSprite sprites loading u) u =
        some (createPlaceholderSprite (getPlayerColor u))) ∧
    (∀ (cfg : ViewportConfig) (cameraX cameraY : Int)
      (tileRenderSize : Nat) (buffer : PixelGrid)
      (player : PlayerVisualState),
      (renderPlaceholderPlayer cfg cameraX cameraY tileRenderSize buffer
          player).map List.length = buffer.map List.length) := by
  refine ⟨?_, ?_, ?_⟩
  · intro u
    unfold getPlayerColor
    refine ⟨Int.emod_nonneg _ (by norm_num), Int.emod_lt_of_pos _ (by norm_num),
      Int.emod_nonneg _ (by norm_num), Int.emod_lt_of_pos _ (by norm_num),
      Int.emod_nonneg _ (by norm_num), Int.emod_lt_of_pos _ (by norm_num)⟩
  · intro sprites loading u hnone hload
    unfold ensurePlayerSprite
    rw [if_pos ⟨by simp [hnone], hload⟩]
    unfold mapSet
    rw [any_eq_false_of_mapGet_none hnone]
    simp only [Bool.false_eq_true, if_false]
    exact mapGet_append_of_none hnone _
  · intro cfg cameraX cameraY tileRenderSize buffer player
    simp only [renderPlaceholderPlayer]
    split_ifs with h
    · rfl
    · exact foldl_mapLength _
        (fun b n => foldl_mapLength _
          (fun b2 m => gridSet_mapLength b2 _ _ _) _ b) _ buffer

/-- Witness for C2: a player with an empty sprite store gets the
identifier-derived placeholder registered. -/
theorem placeholder_substitution_deterministic_witness :
    mapGet (ensurePlayerSprite [] [] "alice") "alice" =
      some (createPlaceholderSprite (getPlayerColor "alice")) :=
  placeholder_substitution_deterministic.2.1 [] [] "alice" rfl
    (by simp)

/-!
## TileProvider chunk cache (tile-provider.ts)

The chunk cache is a JS `Map` keyed by `"chunkX,chunkY"`.  `getChunk`
refreshes `accessedAt` on a hit and generates + inserts + evicts on a
miss; `evictOldChunks` sorts the entries ascending by `accessedAt`
(JS `Array.sort` is stable; `insertionSort` with `≤` below is the same
stable ascending sort) and deletes the oldest entries until the size is
back at the capacity.  The `ValueNoise` sampler lives outside the core
sources and is threaded through as a function parameter; the
`SeededRandom` passed to `getTileIdFromTerrain` is unused there and
omitted.
-/

/-- The protocol `Tile` record (fields used by the provider). -/
structure Tile where
  id : String
  name : String
  pixels : PixelGrid
  walkable : Bool
  animated : Bool

/-- JS `%` on integers: the truncated remainder (sign of the dividend). -/
def jsIntMod (a b : Int) : Int := Int.tmod a b

/-- The double-modulo local chunk coordinate of `getTile`:
`((v % CHUNK_SIZE_TILES) + CHUNK_SIZE_TILES) % CHUNK_SIZE_TILES`. -/
def localChunkIndex (v : Int) (N : Nat) : Int :=
  jsIntMod (jsIntMod v N + N) N

/-- A cached chunk: the tile-id grid plus its last access time. -/
structure ChunkData where
  tiles : List (List String)
  accessedAt : Int

/-- `TileProvider.generateChunk`: a CHUNK_SIZE × CHUNK_SIZE grid of tile
ids classified from the two noise samples per tile. -/
def generateChunk (noise : ℚ → ℚ → ℚ) (N : Nat) (chunkX chunkY : Int)
    (now : Int) : ChunkData :=
  { tiles := (List.range N).map (fun (y : Nat) =>
      (List.range N).map (fun (x : Nat) =>
        let worldX : ℚ := (((chunkX * (N : Int) + (x : Int)) : Int) : ℚ)
        let worldY : ℚ := (((chunkY * (N : Int) + (y : Int)) : Int) : ℚ)
        let elevation := noise (worldX * (5/100)) (worldY * (5/100))
        let moisture :=
          noise (worldX * (3/100) + 1000) (worldY * (3/100) + 1000)
        getTileIdFromTerrain elevation moisture))
    accessedAt := now }

/-- Chunk-cache state of a `TileProvider` instance. -/
structure TileProviderState where
  chunkCache : List (String × ChunkData)
  maxChunks : Nat

/-- The chunk cache key `"chunkX,chunkY"`. -/
def chunkKey (cx cy : Int) : String :=
  toString cx ++ "," ++ toString cy

/-- Ascending order on last-access time, the comparator
`(a, b) => a[1].accessedAt - b[1].accessedAt`. -/
def accessLE (a b : String × ChunkData) : Prop :=
  a.2.accessedAt ≤ b.2.accessedAt

instance : DecidableRel accessLE := fun a b =>
  Int.decLe a.2.accessedAt b.2.accessedAt

instance : IsTotal (String × ChunkData) accessLE :=
  ⟨fun a b => Int.le_total a.2.accessedAt b.2.accessedAt⟩

instance : IsTrans (String × ChunkData) accessLE :=
  ⟨fun _ _ _ hab hbc => le_trans hab hbc⟩

/-- Delete a list of entries from the cache by key
(`for (const [key] of toRemove) this.chunkCache.delete(key)`). -/
def deleteKeys (cache : List (String × ChunkData))
    (ks : List (String × ChunkData)) : List (String × ChunkData) :=
  ks.foldl (fun m kv => m.filter (fun p => ¬ p.1 = kv.1)) cache

/-- `TileProvider.evictOldChunks`: when over capacity, sort the entries
ascending by last-access time and delete the oldest until at capacity. -/
def evictOldChunks (cache : List (String × ChunkData)) (maxChunks : Nat) :
    List (String × ChunkData) :=
  if cache.length ≤ maxChunks then cache
  else
    let entries := List.insertionSort accessLE cache
    let toRemove := entries.take (entries.length - maxChunks)
    deleteKeys cache toRemove

/-- `TileProvider.getChunk`: refresh the access time on a hit; generate,
insert and evict on a miss. -/
def getChunk (noise : ℚ → ℚ → ℚ) (N : Nat) (st : TileProviderState)
    (cx cy now : Int) : ChunkData × TileProviderState :=
  let key := chunkKey cx cy
  match mapGet st.chunkCache key with
  | some chunk =>
    let chunk' := { chunk with accessedAt := now }
    (chunk', { st with chunkCache := mapSet st.chunkCache key chunk' })
  | none =>
    let chunk := generateChunk noise N cx cy now
    let cache1 := mapSet st.chunkCache key chunk
    let cache2 := evictOldChunks cache1 st.maxChunks
    (chunk, { st with chunkCache := cache2 })

/-- `TileProvider.getTile`.  `Math.floor(tileX / N)` is the flooring
division; the rest of the source (base tile lookup, void fallback and
the deterministic rotation, whose hash uses floating-point products) is
a per-tile total function abstracted as `resolveTile`; its `null`
results model the `return null` paths. -/
def getTile (noise : ℚ → ℚ → ℚ) (N : Nat)
    (resolveTile : String → Int → Int → Option Tile)
    (st : TileProviderState) (tileX tileY now : Int) :
    Option Tile × TileProviderState :=
  let chunkX := Int.fdiv tileX N
  let chunkY := Int.fdiv tileY N
  let res := getChunk noise N st chunkX chunkY now
  let localX := localChunkIndex tileX N
  let localY := localChunkIndex tileY N
  match (res.1.tiles.get? localY.toNat).bind
      (fun row => row.get? localX.toNat) with
  | some tileId => (resolveTile tileId tileX tileY, res.2)
  | none => (none, res.2)

/-- Run a sequence of `getTile` calls (`(tileX, tileY, now)` triples)
against a fresh provider with the given capacity. -/
def runGetTiles (noise : ℚ → ℚ → ℚ) (N : Nat)
    (resolveTile : String → Int → Int → Option Tile) (maxChunks : Nat)
    (calls : List (Int × Int × Int)) : TileProviderState :=
  calls.foldl
    (fun st c => (getTile noise N resolveTile st c.1 c.2.1 c.2.2).2)
    ⟨[], maxChunks⟩

/-- Keys of the chunk cache are pairwise distinct (a JS `Map` invariant). -/
def nodupKeys (cache : List (String × ChunkData)) : Prop :=
  (cache.map (fun p => p.1)).Nodup

/-- A well-formed chunk is an N×N grid of tile ids. -/
def chunkWF (N : Nat) (c : ChunkData) : Prop :=
  c.tiles.length = N ∧ ∀ row ∈ c.tiles, row.length = N

/-- The truncated remainder by a positive modulus is above the negated
modulus (sign of the dividend, magnitude below the modulus). -/
lemma neg_lt_tmod (a : Int) {b : Int} (hb : 0 < b) : -b < Int.tmod a b := by
  rcases le_or_lt 0 a with ha | ha
  · have h0 : (0 : Int) ≤ Int.tmod a b := Int.tmod_nonneg b ha
    omega
  · have key : Int.tmod a b = -Int.tmod (-a) b := by
      rcases a with m | m
      · exact absurd ha (Int.not_lt.2 (Int.ofNat_zero_le m))
      · rcases b with n | n
        · rfl
        · exact absurd hb (Int.not_lt.2 (le_of_lt (Int.negSucc_lt_zero n)))
    have h2 : Int.tmod (-a) b < b := Int.tmod_lt_of_pos _ hb
    omega

/-- The double-modulo local index lies in `[0, N)` for every integer
coordinate, including negative coordinates. -/
lemma localChunkIndex_bounds (v : Int) {N : Nat} (hN : 0 < N) :
    0 ≤ localChunkIndex v N ∧ localChunkIndex v N < N := by
  unfold localChunkIndex jsIntMod
  have hNpos : (0 : Int) < (N : Int) := by exact_mod_cast hN
  have h1 : Int.tmod v N < N := Int.tmod_lt_of_pos _ hNpos
  have h2 : -(N : Int) < Int.tmod v N := neg_lt_tmod _ hNpos
  have h3 : (0 : Int) ≤ Int.tmod v N + N := by omega
  rw [Int.tmod_eq_emod h3 (le_of_lt hNpos)]
  exact ⟨Int.emod_nonneg _ (by omega), Int.emod_lt_of_pos _ hNpos⟩

/-- Membership in the cache after deleting keys: the entry was present
before and its key differs from every deleted key. -/
lemma deleteKeys_mem {ks : List (String × ChunkData)} :
    ∀ {m x}, x ∈ deleteKeys m ks → x ∈ m ∧ ∀ kv ∈ ks, x.1 ≠ kv.1 := by
  induction ks with
  | nil =>
    intro m x hx
    exact ⟨hx, fun kv hkv => absurd hkv (List.not_mem_nil kv)⟩
  | cons k rest ih =>
    intro m x hx
    have hx' := ih (m := m.filter (fun p => ¬ p.1 = k.1)) hx
    rcases hx' with ⟨hmem, hrest⟩
    have hmem' := List.mem_filter.1 hmem
    refine ⟨hmem'.1, ?_⟩
    intro kv hkv
    rcases List.mem_cons.1 hkv with rfl | hkv'
    · simpa using hmem'.2
    · exact hrest kv hkv'

/-- Deleting keys yields a sublist of the original cache. -/
lemma deleteKeys_sublist {ks : List (String × ChunkData)} :
    ∀ {m}, List.Sublist (deleteKeys m ks) m := by
  induction ks with
  | nil => intro m; exact List.Sublist.refl m
  | cons k rest ih =>
    intro m
    exact List.Sublist.trans ih (List.filter_sublist m)

/-- Deleting a present key from a cache with pairwise-distinct keys
removes exactly one entry. -/
lemma filter_ne_key_length {m : List (String × ChunkData)}
    {k : String × ChunkData} (hnd : nodupKeys m) (hk : k ∈ m) :
    (m.filter (fun p => ¬ p.1 = k.1)).length + 1 = m.length := by
  induction m with
  | nil => cases hk
  | cons a rest ih =>
    simp only [nodupKeys, List.map_cons, List.nodup_cons] at hnd
    rcases List.mem_cons.1 hk with rfl | hk'
    · have hall : rest.filter (fun p => ¬ p.1 = k.1) = rest := by
        apply List.filter_eq_self.2
        intro p hp
        have hne : p.1 ≠ k.1 := by
          intro he
          exact hnd.1 (he ▸ List.mem_map_of_mem (fun q => q.1) hp)
        simpa using hne
      rw [List.filter_cons_of_neg (by simp), hall]
      simp
    · have hne : a.1 ≠ k.1 := by
        intro he
        exact hnd.1 (he ▸ List.mem_map_of_mem (fun q => q.1) hk')
      have hih := ih hnd.2 hk'
      rw [List.filter_cons_of_pos (by simpa using hne)]
      simp only [List.length_cons]
      omega

/-- Deleting distinct present keys removes exactly one entry each. -/
lemma deleteKeys_length :
    ∀ {ks m}, nodupKeys m → (∀ k ∈ ks, k ∈ m) →
      ((ks.map (fun p => p.1)).Nodup) →
      (deleteKeys m ks).length + ks.length = m.length := by
  intro ks
  induction ks with
  | nil =>
    intro m _ _ _
    simp [deleteKeys]
  | cons k rest ih =>
    intro m hnd hsub hknd
    have hk : k ∈ m := hsub k (List.mem_cons_self _ _)
    have h1 := filter_ne_key_length hnd hk
    simp only [List.map_cons, List.nodup_cons] at hknd
    have hnd' : nodupKeys (m.filter (fun p => ¬ p.1 = k.1)) :=
      List.Nodup.sublist (List.Sublist.map _ (List.filter_sublist m)) hnd
    have hsub' : ∀ k' ∈ rest, k' ∈ m.filter (fun p => ¬ p.1 = k.1) := by
      intro k' hk'
      have hmem : k' ∈ m := hsub k' (List.mem_cons_of_mem _ hk')
      have hne : k'.1 ≠ k.1 := by
        intro he
        exact hknd.1 (he ▸ List.mem_map_of_mem (fun q => q.1) hk')
      exact List.mem_filter.2 ⟨hmem, by simpa using hne⟩
    have hih := ih hnd' hsub' hknd.2
    have hstep : deleteKeys m (k :: rest) =
        deleteKeys (m.filter (fun p => ¬ p.1 = k.1)) rest := rfl
    rw [hstep]
    simp only [List.length_cons]
    omega

/-- The eviction pass: over capacity, the cache is cut to exactly the
capacity, the removed entries are the least-recently-accessed prefix of
the access-time sort, every evicted entry's access time is at most every
kept entry's access time, and kept entries come from the old cache. -/
lemma evictOldChunks_spec {cache : List (String × ChunkData)}
    {maxChunks : Nat} (hnd : nodupKeys cache)
    (hover : maxChunks < cache.length) :
    (evictOldChunks cache maxChunks).length = maxChunks ∧
    (∀ e ∈ (List.insertionSort accessLE cache).take
        (cache.length - maxChunks),
      ∀ kept ∈ evictOldChunks cache maxChunks,
        e.2.accessedAt ≤ kept.2.accessedAt) ∧
    (∀ kept ∈ evictOldChunks cache maxChunks, kept ∈ cache) := by
  have hperm : List.Perm (List.insertionSort accessLE cache) cache :=
    List.perm_insertionSort _ _
  have hsortlen : (List.insertionSort accessLE cache).length = cache.length :=
    hperm.length_eq
  have hsorted : List.Sorted accessLE (List.insertionSort accessLE cache) :=
    List.sorted_insertionSort _ _
  have hres : evictOldChunks cache maxChunks =
      deleteKeys cache ((List.insertionSort accessLE cache).take
        ((List.insertionSort accessLE cache).length - maxChunks)) := by
    unfold evictOldChunks
    rw [if_neg (by omega)]
  have hremsub : ∀ k ∈ (List.insertionSort accessLE cache).take
      ((List.insertionSort accessLE cache).length - maxChunks), k ∈ cache :=
    fun k hk => hperm.mem_iff.1 (List.take_subset _ _ hk)
  have hsortnd : ((List.insertionSort accessLE cache).map
      (fun p => p.1)).Nodup :=
    (List.Perm.nodup_iff (List.Perm.map _ hperm)).2 hnd
  have hremnd : (((List.insertionSort accessLE cache).take
      ((List.insertionSort accessLE cache).length - maxChunks)).map
        (fun p => p.1)).Nodup := by
    rw [List.map_take]
    exact List.Nodup.sublist (List.take_sublist _ _) hsortnd
  have hremlen : ((List.insertionSort accessLE cache).take
      ((List.insertionSort accessLE cache).length - maxChunks)).length =
      cache.length - maxChunks := by
    rw [List.length_take]
    omega
  have hlen := deleteKeys_length hnd hremsub hremnd
  refine ⟨?_, ?_, ?_⟩
  · rw [hres]
    omega
  · intro e he kept hkept
    rw [hres] at hkept
    rcases deleteKeys_mem hkept with ⟨hkc, hknot⟩
    have hkeptsorted : kept ∈ List.insertionSort accessLE cache :=
      hperm.mem_iff.2 hkc
    have hsplit := List.take_append_drop
      ((List.insertionSort accessLE cache).length - maxChunks)
      (List.insertionSort accessLE cache)
    have hkept' : kept ∈ (List.insertionSort accessLE cache).take
          ((List.insertionSort accessLE cache).length - maxChunks) ∨
        kept ∈ (List.insertionSort accessLE cache).drop
          ((List.insertionSort accessLE cache).length - maxChunks) := by
      rw [← List.mem_append, hsplit]
      exact hkeptsorted
    rcases hkept' with hkept' | hkept'
    · exact absurd rfl (hknot kept hkept')
    · have hpw : List.Pairwise accessLE
          ((List.insertionSort accessLE cache).take
            ((List.insertionSort accessLE cache).length - maxChunks) ++
          (List.insertionSort accessLE cache).drop
            ((List.insertionSort accessLE cache).length - maxChunks)) := by
        rw [hsplit]
        exact hsorted
      have he' : e ∈ (List.insertionSort accessLE cache).take
          ((List.insertionSort accessLE cache).length - maxChunks) := by
        rw [hsortlen]
        exact he
      exact (List.pairwise_append.1 hpw).2.2 e he' kept hkept'
  · intro kept hkept
    rw [hres] at hkept
    exact (deleteKeys_mem hkept).1

/-- A successful lookup means the `Map.has` test passes. -/
lemma any_eq_true_of_mapGet_some {α : Type} {m : List (String × α)}
    {k : String} {v : α} (h : mapGet m k = some v) :
    m.any (fun p => p.1 = k) = true := by
  unfold mapGet at h
  cases hf : m.find? (fun p => decide (p.1 = k)) with
  | none => rw [hf] at h; cases h
  | some q =>
    rw [List.any_eq_true]
    have hq1 := List.mem_of_find?_eq_some hf
    have hq2 := List.find?_some hf
    exact ⟨q, hq1, hq2⟩

/-- Updating an existing key leaves the key sequence unchanged. -/
lemma mapSet_keys_of_any {α : Type} {m : List (String × α)} {k : String}
    {v : α} (h : m.any (fun p => p.1 = k) = true) :
    (mapSet m k v).map (fun p => p.1) = m.map (fun p => p.1) := by
  unfold mapSet
  rw [if_pos h, List.map_map]
  apply List.map_congr_left
  intro p _
  by_cases hpk : p.1 = k
  · simp [hpk]
  · simp [hpk]

/-- Updating an existing key leaves the entry count unchanged. -/
lemma mapSet_length_of_any {α : Type} {m : List (String × α)} {k : String}
    {v : α} (h : m.any (fun p => p.1 = k) = true) :
    (mapSet m k v).length = m.length := by
  unfold mapSet
  rw [if_pos h, List.length_map]

/-- Setting a fresh key appends the entry. -/
lemma mapSet_eq_append {α : Type} {m : List (String × α)} {k : String}
    {v : α} (h : m.any (fun p => p.1 = k) = false) :
    mapSet m k v = m ++ [(k, v)] := by
  unfold mapSet
  rw [h]
  simp

/-- Values of an updated map: the new entry or an untouched old entry. -/
lemma mapSet_mem_of_any {α : Type} {m : List (String × α)} {k : String}
    {v : α} (h : m.any (fun p => p.1 = k) = true) :
    ∀ e ∈ mapSet m k v, e = (k, v) ∨ e ∈ m := by
  unfold mapSet
  rw [if_pos h]
  intro e he
  rcases List.mem_map.1 he with ⟨p, hp, hpe⟩
  by_cases hpk : p.1 = k
  · rw [if_pos hpk] at hpe
    exact Or.inl hpe.symm
  · rw [if_neg hpk] at hpe
    exact Or.inr (hpe ▸ hp)

/-- The chunk produced by `generateChunk` is an N×N grid. -/
lemma generateChunk_wf (noise : ℚ → ℚ → ℚ) (N : Nat) (cx cy now : Int) :
    chunkWF N (generateChunk noise N cx cy now) := by
  constructor
  · simp [generateChunk]
  · intro row hrow
    simp only [generateChunk, List.mem_map] at hrow
    rcases hrow with ⟨y, _, hy⟩
    simp [← hy]

/-- `getChunk` keeps the cache keys pairwise distinct and the cache at or
under capacity. -/
lemma getChunk_inv (noise : ℚ → ℚ → ℚ) (N : Nat)
    (st : TileProviderState) (cx cy now : Int)
    (hnd : nodupKeys st.chunkCache)
    (hb : st.chunkCache.length ≤ st.maxChunks) :
    nodupKeys (getChunk noise N st cx cy now).2.chunkCache ∧
    (getChunk noise N st cx cy now).2.chunkCache.length ≤ st.maxChunks ∧
    (getChunk noise N st cx cy now).2.maxChunks = st.maxChunks := by
  simp only [getChunk]
  cases hget : mapGet st.chunkCache (chunkKey cx cy) with
  | some chunk =>
    have hany := any_eq_true_of_mapGet_some hget
    dsimp only
    refine ⟨?_, ?_, rfl⟩
    · unfold nodupKeys
      rw [mapSet_keys_of_any hany]
      exact hnd
    · rw [mapSet_length_of_any hany]
      exact hb
  | none =>
    have hany : st.chunkCache.any
        (fun p => p.1 = chunkKey cx cy) = false := by
      cases ha : st.chunkCache.any (fun p => p.1 = chunkKey cx cy) with
      | false => rfl
      | true =>
        rcases List.any_eq_true.1 ha with ⟨q, hq, hqk⟩
        have : mapGet st.chunkCache (chunkKey cx cy) ≠ none := by
          unfold mapGet
          cases hf : st.chunkCache.find? (fun p => decide (p.1 = chunkKey cx cy)) with
          | none =>
            rw [List.find?_eq_none] at hf
            exact absurd hqk (by simpa using hf q hq)
          | some r => simp
        exact absurd hget this
    have happ := mapSet_eq_append (v := generateChunk noise N cx cy now) hany
    have hknotin : chunkKey cx cy ∉ st.chunkCache.map (fun p => p.1) := by
      intro hmem
      rcases List.mem_map.1 hmem with ⟨q, hq, hqk⟩
      rw [List.any_eq_false] at hany
      exact hany q hq (by simpa using hqk)
    have hnd1 : nodupKeys (st.chunkCache ++
        [(chunkKey cx cy, generateChunk noise N cx cy now)]) := by
      unfold nodupKeys
      rw [List.map_append]
      simp only [List.map_cons, List.map_nil]
      rw [List.nodup_append]
      exact ⟨hnd, List.nodup_singleton _, by simpa using hknotin⟩
    dsimp only
    rw [happ]
    have hlen1 : (st.chunkCache ++
        [(chunkKey cx cy, generateChunk noise N cx cy now)]).length =
        st.chunkCache.length + 1 := by simp
    refine ⟨?_, ?_, rfl⟩
    · by_cases hle : (st.chunkCache ++
          [(chunkKey cx cy, generateChunk noise N cx cy now)]).length ≤
            st.maxChunks
      · unfold evictOldChunks
        rw [if_pos hle]
        exact hnd1
      · unfold nodupKeys
        unfold evictOldChunks
        rw [if_neg hle]
        exact List.Nodup.sublist
          (List.Sublist.map _ deleteKeys_sublist) hnd1
    · by_cases hle : (st.chunkCache ++
          [(chunkKey cx cy, generateChunk noise N cx cy now)]).length ≤
            st.maxChunks
      · unfold evictOldChunks
        rw [if_pos hle]
        exact hle
      · have hover2 : st.maxChunks < (st.chunkCache ++
            [(chunkKey cx cy, generateChunk noise N cx cy now)]).length := by
          omega
        have := (evictOldChunks_spec hnd1 hover2).1
        omega

/-- `getTile` changes the provider state exactly as its `getChunk` call
does. -/
lemma getTile_state_eq (noise : ℚ → ℚ → ℚ) (N : Nat)
    (resolveTile : String → Int → Int → Option Tile)
    (st : TileProviderState) (tileX tileY now : Int) :
    (getTile noise N resolveTile st tileX tileY now).2 =
      (getChunk noise N st (Int.fdiv tileX N) (Int.fdiv tileY N) now).2 := by
  simp only [getTile]
  cases ((getChunk noise N st (Int.fdiv tileX N) (Int.fdiv tileY N)
      now).1.tiles.get? (localChunkIndex tileY N).toNat).bind
      (fun row => row.get? (localChunkIndex tileX N).toNat) <;> rfl

/-- Along any sequence of `getTile` calls the cache keys stay distinct
and the cache stays at or under capacity. -/
lemma runGetTiles_inv (noise : ℚ → ℚ → ℚ) (N : Nat)
    (resolveTile : String → Int → Int → Option Tile) (maxChunks : Nat)
    (calls : List (Int × Int × Int)) :
    nodupKeys (runGetTiles noise N resolveTile maxChunks calls).chunkCache ∧
    (runGetTiles noise N resolveTile maxChunks calls).chunkCache.length ≤
      maxChunks ∧
    (runGetTiles noise N resolveTile maxChunks calls).maxChunks =
      maxChunks := by
  have main : ∀ (l : List (Int × Int × Int)) (st : TileProviderState),
      nodupKeys st.chunkCache → st.chunkCache.length ≤ st.maxChunks →
      nodupKeys (l.foldl
        (fun st c => (getTile noise N resolveTile st c.1 c.2.1 c.2.2).2)
        st).chunkCache ∧
      (l.foldl
        (fun st c => (getTile noise N resolveTile st c.1 c.2.1 c.2.2).2)
        st).chunkCache.length ≤
        (l.foldl
          (fun st c => (getTile noise N resolveTile st c.1 c.2.1 c.2.2).2)
          st).maxChunks ∧
      (l.foldl
        (fun st c => (getTile noise N resolveTile st c.1 c.2.1 c.2.2).2)
        st).maxChunks = st.maxChunks := by
    intro l
    induction l with
    | nil =>
      intro st h1 h2
      exact ⟨h1, h2, rfl⟩
    | cons c rest ih =>
      intro st h1 h2
      rw [List.foldl_cons]
      rw [getTile_state_eq]
      rcases getChunk_inv noise N st (Int.fdiv c.1 N) (Int.fdiv c.2.1 N)
        c.2.2 h1 h2 with ⟨hh1, hh2, hh3⟩
      rcases ih _ hh1 (by rw [hh3]; exact hh2) with ⟨hr1, hr2, hr3⟩
      exact ⟨hr1, hr2, by rw [hr3, hh3]⟩
  have h0 : nodupKeys (⟨[], maxChunks⟩ : TileProviderState).chunkCache :=
    List.nodup_nil
  rcases main calls ⟨[], maxChunks⟩ h0 (by simp) with ⟨h1, h2, h3⟩
  exact ⟨h1, le_trans h2 (le_of_eq h3), h3⟩

/-- C3: after any sequence of `getTile` calls the chunk cache holds at
most `maxChunks` chunks; when an insertion pushes it over capacity the
eviction pass cuts it back to exactly `maxChunks`, removing the
least-recently-accessed entries: the removed entries form the prefix of
the stable sort by last-access time, every evicted entry's access time
is at most every kept entry's, the kept entries come from the old cache,
and a cache at or under capacity is left untouched. -/
theorem chunk_cache_lru_bound :
    (∀ (noise : ℚ → ℚ → ℚ) (N : Nat)
      (resolveTile : String → Int → Int → Option Tile)
      (maxChunks : Nat) (calls : List (Int × Int × Int)),
      (runGetTiles noise N resolveTile maxChunks calls).chunkCache.length ≤
        maxChunks) ∧
    (∀ (cache : List (String × ChunkData)) (maxChunks : Nat),
      nodupKeys cache → maxChunks < cache.length →
      (evictOldChunks cache maxChunks).length = maxChunks ∧
      (∀ e ∈ (List.insertionSort accessLE cache).take
          (cache.length - maxChunks),
        ∀ kept ∈ evictOldChunks cache maxChunks,
          e.2.accessedAt ≤ kept.2.accessedAt) ∧
      (∀ kept ∈ evictOldChunks cache maxChunks, kept ∈ cache)) ∧
    (∀ (cache : List (String × ChunkData)) (maxChunks : Nat),
      cache.length ≤ maxChunks → evictOldChunks cache maxChunks = cache) := by
  refine ⟨?_, ?_, ?_⟩
  · intro noise N resolveTile maxChunks calls
    exact (runGetTiles_inv noise N resolveTile maxChunks calls).2.1
  · intro cache maxChunks hnd hover
    exact evictOldChunks_spec hnd hover
  · intro cache maxChunks hle
    unfold evictOldChunks
    rw [if_pos hle]

/-- Sample over-capacity cache: two chunks, the older accessed at time 5,
the newer at time 9, capacity 1. -/
def lruSampleCache : List (String × ChunkData) :=
  [("0,0", ⟨[], 9⟩), ("1,0", ⟨[], 5⟩)]

/-- Witness for C3: the sample cache has distinct keys and is over its
capacity of 1, so eviction cuts it to exactly one chunk, keeps entries
of the old cache, and every evicted access time is at most every kept
access time. -/
theorem chunk_cache_lru_bound_witness :
    (evictOldChunks lruSampleCache 1).length = 1 ∧
    (∀ e ∈ (List.insertionSort accessLE lruSampleCache).take
        (lruSampleCache.length - 1),
      ∀ kept ∈ evictOldChunks lruSampleCache 1,
        e.2.accessedAt ≤ kept.2.accessedAt) ∧
    (∀ kept ∈ evictOldChunks lruSampleCache 1, kept ∈ lruSampleCache) :=
  chunk_cache_lru_bound.2.1 lruSampleCache 1
    (by simp [lruSampleCache, nodupKeys])
    (by simp [lruSampleCache])

/-- A cached value comes from some entry of the map. -/
lemma mapGet_some_mem {α : Type} {m : List (String × α)} {k : String}
    {v : α} (h : mapGet m k = some v) : ∃ q ∈ m, q.2 = v := by
  unfold mapGet at h
  cases hf : m.find? (fun p => decide (p.1 = k)) with
  | none => rw [hf] at h; cases h
  | some q =>
    rw [hf] at h
    refine ⟨q, List.mem_of_find?_eq_some hf, ?_⟩
    simpa using h

/-- The chunk handed back by `getChunk` is an N×N grid whenever every
cached chunk is. -/
lemma getChunk_fst_wf (noise : ℚ → ℚ → ℚ) (N : Nat)
    (st : TileProviderState) (cx cy now : Int)
    (hwf : ∀ e ∈ st.chunkCache, chunkWF N e.2) :
    chunkWF N (getChunk noise N st cx cy now).1 := by
  simp only [getChunk]
  cases hget : mapGet st.chunkCache (chunkKey cx cy) with
  | some chunk =>
    rcases mapGet_some_mem hget with ⟨q, hq, hqv⟩
    have := hwf q hq
    rw [hqv] at this
    exact this
  | none =>
    exact generateChunk_wf noise N cx cy now

/-- C10: for every integer world coordinate, also negative ones, the
double-modulo local index lies in `[0, CHUNK_SIZE_TILES)`; the generated
chunk is a full CHUNK_SIZE × CHUNK_SIZE grid; hence the lookup into the
chunk's tile array always finds a tile id and `getTile` returns the
resolved tile (or null) without any out-of-bounds access. -/
theorem getTile_local_index_in_bounds :
    (∀ (v : Int) (N : Nat), 0 < N →
      0 ≤ localChunkIndex v N ∧ localChunkIndex v N < N) ∧
    (∀ (noise : ℚ → ℚ → ℚ) (N : Nat) (cx cy now : Int),
      chunkWF N (generateChunk noise N cx cy now)) ∧
    (∀ (noise : ℚ → ℚ → ℚ) (N : Nat)
      (resolveTile : String → Int → Int → Option Tile)
      (st : TileProviderState) (tileX tileY now : Int), 0 < N →
      (∀ e ∈ st.chunkCache, chunkWF N e.2) →
      ∃ tileId,
        ((getChunk noise N st (Int.fdiv tileX N) (Int.fdiv tileY N)
            now).1.tiles.get? (localChunkIndex tileY N).toNat).bind
          (fun row => row.get? (localChunkIndex tileX N).toNat) =
            some tileId ∧
        (getTile noise N resolveTile st tileX tileY now).1 =
          resolveTile tileId tileX tileY) := by
  refine ⟨fun v N hN => localChunkIndex_bounds v hN, ?_, ?_⟩
  · intro noise N cx cy now
    exact generateChunk_wf noise N cx cy now
  · intro noise N resolveTile st tileX tileY now hN hwf
    rcases getChunk_fst_wf noise N st (Int.fdiv tileX N) (Int.fdiv tileY N)
      now hwf with ⟨hlen, hrows⟩
    rcases localChunkIndex_bounds tileY hN with ⟨hy0, hyN⟩
    rcases localChunkIndex_bounds tileX hN with ⟨hx0, hxN⟩
    have hyn : (localChunkIndex tileY N).toNat <
        (getChunk noise N st (Int.fdiv tileX N) (Int.fdiv tileY N)
          now).1.tiles.length := by
      rw [hlen]; omega
    have hrow : (getChunk noise N st (Int.fdiv tileX N) (Int.fdiv tileY N)
        now).1.tiles.get? (localChunkIndex tileY N).toNat =
        some ((getChunk noise N st (Int.fdiv tileX N) (Int.fdiv tileY N)
          now).1.tiles.get ⟨(localChunkIndex tileY N).toNat, hyn⟩) :=
      List.get?_eq_get hyn
    have hrmem := List.get_mem _ _ hyn
    have hrlen := hrows _ hrmem
    have hxn : (localChunkIndex tileX N).toNat <
        ((getChunk noise N st (Int.fdiv tileX N) (Int.fdiv tileY N)
          now).1.tiles.get
            ⟨(localChunkIndex tileY N).toNat, hyn⟩).length := by
      rw [hrlen]; omega
    have hcell := List.get?_eq_get hxn
    have haccess : ((getChunk noise N st (Int.fdiv tileX N)
        (Int.fdiv tileY N) now).1.tiles.get?
          (localChunkIndex tileY N).toNat).bind
        (fun row => row.get? (localChunkIndex tileX N).toNat) =
        some (((getChunk noise N st (Int.fdiv tileX N) (Int.fdiv tileY N)
          now).1.tiles.get ⟨(localChunkIndex tileY N).toNat, hyn⟩).get
            ⟨(localChunkIndex tileX N).toNat, hxn⟩) := by
      rw [hrow, Option.some_bind]
      exact hcell
    refine ⟨_, haccess, ?_⟩
    simp only [getTile]
    rw [haccess]

/-- Witness for C10 at the negative coordinates (-5, -7) with chunk size
32 and an empty 64-chunk cache: the local index is in range and the tile
array lookup succeeds. -/
theorem getTile_local_index_in_bounds_witness :
    (0 ≤ localChunkIndex (-5) 32 ∧ localChunkIndex (-5) 32 < 32) ∧
    (∃ tileId,
      ((getChunk (fun _ _ => 0) 32 ⟨[], 64⟩ (Int.fdiv (-5) ((32 : Nat) : Int))
          (Int.fdiv (-7) ((32 : Nat) : Int)) 0).1.tiles.get?
            (localChunkIndex (-7) 32).toNat).bind
        (fun row => row.get? (localChunkIndex (-5) 32).toNat) =
          some tileId ∧
      (getTile (fun _ _ => 0) 32 (fun _ _ _ => none) ⟨[], 64⟩ (-5) (-7)
          0).1 =
        (fun _ _ _ => none : String → Int → Int → Option Tile)
          tileId (-5) (-7)) :=
  ⟨getTile_local_index_in_bounds.1 (-5) 32 (by norm_num),
   getTile_local_index_in_bounds.2.2 (fun _ _ => 0) 32 (fun _ _ _ => none)
     ⟨[], 64⟩ (-5) (-7) 0 (by norm_num) (by simp)⟩
